import Mathlib

/-!
Verification of the visit-schedule deviation engine of
`calculate_test_deviations.py`.

The script loads a participant/event table, normalizes it, resolves a
per-participant baseline anchor date and end-of-schedule horizon, indexes the
performed tests, walks the expected schedule classifying each expected test as
missed / outside-window / on-time, writes the three counts onto the first
baseline row of each computed participant, and finally blanks the counts of
every row of status-5 participants.

Dates are embedded as calendar dates (year, month, day).  The script compares
pandas timestamps; we compare dates through their serial day number `Date.toRD`
(days since 0000-12-31 of the proleptic Gregorian calendar), which agrees with
timestamp order on valid dates, and `scheduled_date - timedelta(days = k)`
shifts the serial number by `k`.  Month offsets use `addMonths`, the embedding
of `base_dt + relativedelta(months = n)`: add `n` to the month, carry into the
year, and clamp the day to the last valid day of the target month.
-/

namespace TestDeviations

structure Date where
  year : Nat
  month : Nat
  day : Nat
deriving DecidableEq, Repr


def isLeap (y : Nat) : Bool :=
  (y % 4 == 0 && y % 100 != 0) || y % 400 == 0


def daysInMonth (y m : Nat) : Nat :=
  if m = 2 then (if isLeap y then 29 else 28)
  else if m = 4 ∨ m = 6 ∨ m = 9 ∨ m = 11 then 30
  else 31


def daysBeforeMonth (y m : Nat) : Nat :=
  (List.range (m - 1)).foldl (fun acc k => acc + daysInMonth y (k + 1)) 0


def leapsBefore (y : Nat) : Nat :=
  y / 4 - y / 100 + y / 400


def Date.toRD (d : Date) : Int :=
  365 * ((d.year : Int) - 1) + (leapsBefore (d.year - 1) : Int)
    + (daysBeforeMonth d.year d.month : Int) + (d.day : Int)


def ValidDate (d : Date) : Prop :=
  1 ≤ d.month ∧ d.month ≤ 12 ∧ 1 ≤ d.day ∧ d.day ≤ daysInMonth d.year d.month


instance (d : Date) : Decidable (ValidDate d) := by
  unfold ValidDate; infer_instance


/-- Embedding of `base_dt + relativedelta(months = n)` from
`calculate_test_deviations.py` (used at the status-1 horizon and at every
scheduled follow-up date): month arithmetic with day-of-month clamping. -/
def addMonths (d : Date) (n : Nat) : Date :=
  let t := d.month - 1 + n
  let y := d.year + t / 12
  let m := t % 12 + 1
  ⟨y, m, min d.day (daysInMonth y m)⟩


/-- Specification of calendar month addition with day clamping, instantiated by
claim C9: the month index advances by exactly `n`, the day of month is kept
when it exists in the target month and clamped to its last valid day otherwise,
the result is always a valid date (never an error), and the two concrete
rollover examples of the spec hold. -/
def addMonthsSpec (d : Date) (n : Nat) : Prop :=
  ValidDate (addMonths d n) ∧
  (addMonths d n).year * 12 + ((addMonths d n).month - 1)
    = d.year * 12 + (d.month - 1) + n ∧
  (addMonths d n).day
    = min d.day (daysInMonth (addMonths d n).year (addMonths d n).month) ∧
  (d.day ≤ daysInMonth (addMonths d n).year (addMonths d n).month →
    (addMonths d n).day = d.day) ∧
  addMonths ⟨2023, 1, 31⟩ 1 = ⟨2023, 2, 28⟩ ∧
  addMonths ⟨2024, 1, 31⟩ 1 = ⟨2024, 2, 29⟩


/-- Timestamp order of the script, on embedded dates: `a <= b` compared through
the serial day number. -/
def dle (a b : Date) : Bool :=
  decide (a.toRD ≤ b.toRD)


/-!
Row model.  `CoreRow` holds the columns the deviation computation reads
(participant id, event name, the four date columns, the status); `Row` adds
the three output count columns.  All fields are already normalized the way the
script normalizes them before any computation: ids trimmed strings, dates
parsed with unparseable values coerced to absent, status a nullable integer.
-/
structure CoreRow where
  record_id : String
  event_name : String
  test_date : Option Date
  visit_date : Option Date
  participant_status : Option Int
  primary_endpoint_date : Option Date
  secondary_endpoint_date : Option Date
deriving DecidableEq, Repr


structure Row extends CoreRow where
  missed_test_count : Option Nat
  outside_window_test_count : Option Nat
  total_test_deviations : Option Nat
deriving DecidableEq, Repr


-- Configuration constants of the script.
def GRACE_DAYS : Nat := 14


def BASELINE_EVENT_NAME : String := "study_baseline"


def EXPECTED_FOLLOWUP_SCHEDULE : List (Nat × String) :=
  [(2, "followup_visit_1"), (4, "followup_visit_2"), (6, "followup_visit_3"),
   (8, "followup_visit_4"), (10, "followup_visit_5"), (12, "followup_visit_6"),
   (14, "followup_visit_7"), (16, "followup_visit_8"), (18, "end_of_study_visit")]


def ALL_TEST_EVENT_NAMES : List String :=
  BASELINE_EVENT_NAME :: EXPECTED_FOLLOWUP_SCHEDULE.map (fun p => p.2)


/-- The script computes `max(EXPECTED_FOLLOWUP_SCHEDULE.keys()) if EXPECTED_FOLLOWUP_SCHEDULE else 0`. -/
def maxMonthOffset : Nat :=
  EXPECTED_FOLLOWUP_SCHEDULE.foldl (fun acc p => max acc p.1) 0


/-!
Baseline Resolver and participant info.  The script filters to baseline-event
rows with a non-empty id, sorts by participant id and keeps the first row per
participant; per participant this is the first baseline row in input order.
The status and endpoint dates are pulled from that same row
(`pinfo_raw.drop_duplicates(keep = "first")`), and the effective baseline is
the test date of the row, falling back to its visit date.
-/
def baselineRowFor (rows : List CoreRow) (pid : String) : Option CoreRow :=
  rows.find? (fun r =>
    r.event_name == BASELINE_EVENT_NAME && r.record_id == pid && r.record_id != "")


def effectiveBaselineOf (r : CoreRow) : Option Date :=
  match r.test_date with
  | some d => some d
  | none => r.visit_date


structure PInfo where
  base : Date
  status : Int
  ep1 : Option Date
  ep2 : Option Date
deriving DecidableEq, Repr


/-- One row of `participants_for_recalc` before the status filter: a
participant with a baseline row, a present status, and a resolved effective
baseline. -/
def participantInfo (rows : List CoreRow) (pid : String) : Option PInfo :=
  match baselineRowFor rows pid with
  | none => none
  | some r =>
    match effectiveBaselineOf r, r.participant_status with
    | some b, some s =>
      some ⟨b, s, r.primary_endpoint_date, r.secondary_endpoint_date⟩
    | _, _ => none


/-!
Performed-Test Index.  The script filters to rows with a tracked event name,
a present test date and a non-empty id, sorts by (id, event, test date) and
keeps the first row per (id, event): per key, the earliest test date wins and
a tie keeps the earlier input row.  `earliestFirst` folds the dates of the
matching rows in input order, replacing the accumulator only on a strictly
earlier date.
-/
def performedDates (rows : List CoreRow) (pid ev : String) : List Date :=
  (rows.filter (fun r =>
    ALL_TEST_EVENT_NAMES.contains r.event_name && r.test_date.isSome
      && r.record_id != "" && r.record_id == pid && r.event_name == ev)).filterMap
    (fun r => r.test_date)


def earliestStep (acc : Option Date) (d : Date) : Option Date :=
  match acc with
  | none => some d
  | some d0 => if d.toRD < d0.toRD then some d else some d0


def earliestFirst (l : List Date) : Option Date :=
  l.foldl earliestStep none


def performedIndex (rows : List CoreRow) (pid ev : String) : Option Date :=
  earliestFirst (performedDates rows pid ev)


/-!
Horizon Resolver and Deviation Engine, translated from the per-participant
loop of the script.
-/
/-- The `participant_end_point_date` assignment: status 1 takes the full
schedule horizon, status 2 the primary endpoint date when present, status 3 or
4 the secondary endpoint date when present, anything else stays absent. -/
def participant_end_point_date (info : PInfo) : Option Date :=
  if info.status = 1 then some (addMonths info.base maxMonthOffset)
  else if info.status = 2 ∧ info.ep1.isSome then info.ep1
  else if (info.status = 3 ∨ info.status = 4) ∧ info.ep2.isSome then info.ep2
  else none


/-- The baseline-expectation test: always expected for status 1, else expected
when the baseline date is on or before a resolved endpoint. -/
def baselineIsExpected (status : Int) (endpt : Option Date) (base : Date) : Bool :=
  if status = 1 then true
  else
    match endpt with
    | some h => dle base h
    | none => false


/-- The follow-up expectation test (`is_expected`): with a resolved endpoint,
expected when the scheduled date is on or before it; without one, expected
exactly for status 1. -/
def isExpectedFollowup (status : Int) (endpt : Option Date) (sched : Date) : Bool :=
  match endpt with
  | some h => dle sched h
  | none => decide (status = 1)


/-- Classification of one expected test, shared by the baseline check and the
follow-up check of the script: an absent performed date increments missed by
one; a present performed date increments outside-window by one exactly when it
falls outside `[scheduled - GRACE_DAYS, scheduled + GRACE_DAYS]` (both bounds
inclusive); otherwise the test is on-time and neither count moves. -/
def inWindow (sched perf : Date) : Bool :=
  decide (sched.toRD - (GRACE_DAYS : Int) ≤ perf.toRD)
    && decide (perf.toRD ≤ sched.toRD + (GRACE_DAYS : Int))


def checkEvent (sched : Date) (perf : Option Date) : Nat × Nat :=
  match perf with
  | none => (1, 0)
  | some p => if inWindow sched p then (0, 0) else (0, 1)


/-- One iteration of the follow-up loop: compute the scheduled date, skip the
entry when it is not expected, otherwise classify it and add the increments. -/
def followupStep (perf : String → String → Option Date) (pid : String)
    (status : Int) (base : Date) (endpt : Option Date)
    (acc : Nat × Nat) (entry : Nat × String) : Nat × Nat :=
  if isExpectedFollowup status endpt (addMonths base entry.1) then
    (acc.1 + (checkEvent (addMonths base entry.1) (perf pid entry.2)).1,
     acc.2 + (checkEvent (addMonths base entry.1) (perf pid entry.2)).2)
  else acc


structure Counts where
  missed : Nat
  outside : Nat
  total : Nat
deriving DecidableEq, Repr


/-- The body of the per-participant loop: resolve the horizon, drop the
participant (`continue`) when a status that needs an endpoint date has none,
then run the baseline check followed by the follow-up loop and store the two
counts with their sum.  The loop body also skips status 1 with an absent
baseline, which cannot occur here because `PInfo.base` is already resolved. -/
def computeCounts (perf : String → String → Option Date) (pid : String)
    (info : PInfo) : Option Counts :=
  let endpt := participant_end_point_date info
  if (info.status = 2 ∨ info.status = 3 ∨ info.status = 4) ∧ endpt = none then
    none
  else
    let baseAcc :=
      if baselineIsExpected info.status endpt info.base then
        checkEvent info.base (perf pid BASELINE_EVENT_NAME)
      else (0, 0)
    let mw := EXPECTED_FOLLOWUP_SCHEDULE.foldl
      (followupStep perf pid info.status info.base endpt) baseAcc
    some ⟨mw.1, mw.2, mw.1 + mw.2⟩


/-- The entry of `calculated_counts` for one participant: present exactly when
the participant has a baseline row with a resolved effective baseline and a
status in {1, 2, 3, 4} (the `valid_statuses_for_calc` filter) and the loop body
does not drop the participant. -/
def calculatedCounts (rows : List CoreRow) (pid : String) : Option Counts :=
  match participantInfo rows pid with
  | none => none
  | some info =>
    if info.status = 1 ∨ info.status = 2 ∨ info.status = 3 ∨ info.status = 4 then
      computeCounts (performedIndex rows) pid info
    else none


/-- Specification instantiated by claim C10 for one computed record. -/
def countsInvariantSpec (c : Counts) : Prop :=
  c.total = c.missed + c.outside ∧
  c.missed + c.outside ≤ 1 + EXPECTED_FOLLOWUP_SCHEDULE.length ∧
  ∀ sched p, (checkEvent sched p).1 + (checkEvent sched p).2 ≤ 1


/-- Specification instantiated by claim C2 for one scheduled date and one
performed date. -/
def graceWindowSpec (s p : Date) : Prop :=
  GRACE_DAYS = 14 ∧
  (checkEvent s (some p) = (0, 0) ↔
    s.toRD - (GRACE_DAYS : Int) ≤ p.toRD
      ∧ p.toRD ≤ s.toRD + (GRACE_DAYS : Int)) ∧
  (checkEvent s (some p) = (0, 1) ↔
    ¬(s.toRD - (GRACE_DAYS : Int) ≤ p.toRD
      ∧ p.toRD ≤ s.toRD + (GRACE_DAYS : Int))) ∧
  (p.toRD = s.toRD - (GRACE_DAYS : Int) → checkEvent s (some p) = (0, 0)) ∧
  (p.toRD = s.toRD + (GRACE_DAYS : Int) → checkEvent s (some p) = (0, 0)) ∧
  (p.toRD = s.toRD - (GRACE_DAYS : Int) - 1 → checkEvent s (some p) = (0, 1)) ∧
  (p.toRD = s.toRD + (GRACE_DAYS : Int) + 1 → checkEvent s (some p) = (0, 1))


/-- Specification instantiated by claim C6 for one (participant, event) key. -/
def performedIndexSpec (rows : List CoreRow) (pid ev : String) : Prop :=
  (performedIndex rows pid ev = none ↔ performedDates rows pid ev = []) ∧
  (∀ d, performedIndex rows pid ev = some d →
    ∃ l₁ l₂, performedDates rows pid ev = l₁ ++ d :: l₂ ∧
      (∀ x ∈ l₁, d.toRD < x.toRD) ∧ ∀ x ∈ l₂, d.toRD ≤ x.toRD) ∧
  (∀ d, d ∈ performedDates rows pid ev ↔
    ∃ r, r ∈ rows ∧ r.record_id = pid ∧ r.event_name = ev ∧ pid ≠ ""
      ∧ ALL_TEST_EVENT_NAMES.contains ev = true ∧ r.test_date = some d)


/-!
Output phase.  The script first clears the three count columns on every row,
then computes `calculated_counts`, writes each computed triple onto the first
row whose id matches the participant and whose event is the baseline event,
and finally sets the three columns back to blank on every row of a participant
that has a baseline row with non-empty id and status 5.
-/
def rowOfCore (c : CoreRow) : Row :=
  ⟨c, none, none, none⟩


/-- Clearing the three output columns of one row (`df.loc[:, col] = pd.NA`). -/
def clearRow (r : Row) : Row :=
  rowOfCore r.toCoreRow


def clearCounts (rows : List Row) : List Row :=
  rows.map clearRow


def coreOf (rows : List Row) : List CoreRow :=
  rows.map (fun r => r.toCoreRow)


def setCounts (r : Row) (c : Counts) : Row :=
  { r with
    missed_test_count := some c.missed,
    outside_window_test_count := some c.outside,
    total_test_deviations := some c.total }


/-- The count-writing pass: for each participant of `calculated_counts` the
script writes the triple at `target_indices[0]`, the first row whose id is the
participant and whose event is the baseline event.  Walking the rows in order
with the set `done` of participant ids whose first baseline row has already
been passed is the same assignment. -/
def writeAll (counts : String → Option Counts) (done : List String) :
    List Row → List Row
  | [] => []
  | r :: rs =>
    if r.event_name == BASELINE_EVENT_NAME && !(done.contains r.record_id) then
      (match counts r.record_id with
       | some c => setCounts r c
       | none => r) :: writeAll counts (r.record_id :: done) rs
    else
      r :: writeAll counts done rs


/-- The `excluded_pids` list: participants with a baseline row, a non-empty id and
status 5 on that row (`fillna(-1) == 5`, so an absent status never matches). -/
def excludedPid (rows : List CoreRow) (pid : String) : Bool :=
  rows.any (fun r =>
    r.event_name == BASELINE_EVENT_NAME && r.record_id != ""
      && r.record_id == pid && decide (r.participant_status = some 5))


/-- The full computation on the loaded table: clear the count columns, compute
`calculated_counts` from the (cleared) table, write each triple onto the first
baseline row of its participant, then blank the counts of every row whose
participant is in `excluded_pids`. -/
def pipeline (rows : List Row) : List Row :=
  let cleared := clearCounts rows
  let written := writeAll (calculatedCounts (coreOf cleared)) [] cleared
  written.map (fun r =>
    if excludedPid (coreOf cleared) r.record_id then clearRow r else r)


/-- A row carries some deviation count. -/
def hasCounts (r : Row) : Bool :=
  r.missed_test_count.isSome || r.outside_window_test_count.isSome
    || r.total_test_deviations.isSome


/-- Example table: a status-5 participant with previously persisted counts on
the baseline row, and one follow-up row. -/
def exampleRows : List Row :=
  [⟨⟨"p5", BASELINE_EVENT_NAME, some ⟨2022, 1, 1⟩, none, some 5, none, none⟩,
    some 3, some 2, some 5⟩,
   ⟨⟨"p5", "followup_visit_1", some ⟨2022, 3, 1⟩, none, some 5, none, none⟩,
    none, none, none⟩]


/-- Witness helper for C5: a status-1 participant with a performed baseline. -/
def exampleRows2 : List Row :=
  [⟨⟨"p1", BASELINE_EVENT_NAME, some ⟨2022, 1, 1⟩, none, some 1, none, none⟩,
    none, none, none⟩,
   ⟨⟨"p1", "followup_visit_1", some ⟨2022, 3, 20⟩, none, some 1, none, none⟩,
    none, none, none⟩]


/-- Specification instantiated by claim C8 for one table. -/
def frameEffectSpec (rows : List Row) : Prop :=
  coreOf (pipeline rows) = coreOf rows ∧
  (pipeline rows).length = rows.length ∧
  (∀ r ∈ pipeline rows,
    (r.missed_test_count = none ∧ r.outside_window_test_count = none
      ∧ r.total_test_deviations = none) ∨
    ∃ c, calculatedCounts (coreOf rows) r.record_id = some c ∧
      r.event_name = BASELINE_EVENT_NAME ∧ r.record_id ≠ "" ∧
      excludedPid (coreOf rows) r.record_id = false ∧
      r.missed_test_count = some c.missed ∧
      r.outside_window_test_count = some c.outside ∧
      r.total_test_deviations = some c.total) ∧
  ∀ pid, (pipeline rows).countP (fun r => r.record_id == pid && hasCounts r) ≤ 1


/-!
Configuration errors and row normalization, for claim C7.  The script aborts
(`sys.exit(1)`) when the participant-id column, the status column or the
event-name column is missing, and when neither the test-date column nor the
visit-date column exists to anchor the baseline; each of these aborts prints
the missing column name.  One further abort is unscripted: when the test-date
column is missing but the visit-date column is present, the date-conversion
loop and the baseline fallback only warn, and the run then dies on the
unguarded `df[TEST_DATE_COL]` access of the performed-test filter with an
uncaught KeyError naming the column (only loading and saving sit in
try/except), still before any counts are computed.  A missing visit-date
column alone, or a missing endpoint date column, only prints a warning and the
run continues (every later endpoint access is guarded by
`endpoint_cols_exist` or `.get`).  Individual cell values are normalized with
total fallbacks: `pd.to_datetime(errors = "coerce")` and
`pd.to_numeric(errors = "coerce")` map unparseable values to absent, ids are
filled and trimmed, and no row is ever removed by normalization.
-/
deriving instance DecidableEq for Except


structure Columns where
  record_id : Bool
  event_name : Bool
  visit_date : Bool
  test_date : Bool
  participant_status : Bool
  primary_endpoint_date : Bool
  secondary_endpoint_date : Bool
deriving DecidableEq, Repr


/-- The abort paths of the script before any count is computed, in source
order: the scripted exits for a missing id column, then (after the warn-only
date conversions) a missing status column, a missing event column, and the
baseline anchor finding neither of the two date columns; and finally, with
the test-date column missing but the visit-date column present, the uncaught
KeyError raised by the unguarded `df[TEST_DATE_COL]` access of the
performed-test filter.  Every path reports the missing column name (the exits
in their message, the KeyError in its traceback). -/
def requiredColumnCheck (c : Columns) : Except String Unit :=
  if !c.record_id then Except.error "record_id"
  else if !c.participant_status then Except.error "participant_status"
  else if !c.event_name then Except.error "event_name"
  else if !c.test_date && !c.visit_date then Except.error "test_date, visit_date"
  else if !c.test_date then Except.error "test_date"
  else Except.ok ()


/-- A raw input row before normalization: every cell a string. -/
structure RawRow where
  record_id : String
  event_name : String
  test_date : String
  visit_date : String
  participant_status : String
  primary_endpoint_date : String
  secondary_endpoint_date : String
deriving DecidableEq, Repr


def isSpaceChar (c : Char) : Bool :=
  decide (c.toNat = 32 ∨ c.toNat = 9 ∨ c.toNat = 10 ∨ c.toNat = 13)


/-- Whitespace stripping of the id cleanup
(`fillna("").astype(str).str.strip()`). -/
def trimChars (l : List Char) : List Char :=
  ((l.dropWhile isSpaceChar).reverse.dropWhile isSpaceChar).reverse


def splitDash : List Char → List (List Char)
  | [] => [[]]
  | c :: rest =>
    match splitDash rest with
    | [] => [[]]
    | cur :: parts =>
      if c.toNat = 45 then [] :: cur :: parts else (c :: cur) :: parts


def parseNatChars (l : List Char) : Option Nat :=
  if l ≠ [] ∧ l.all (fun c => decide (48 ≤ c.toNat ∧ c.toNat ≤ 57)) = true then
    some (l.foldl (fun acc c => acc * 10 + (c.toNat - 48)) 0)
  else none


/-- Embedding of `pd.to_datetime(errors = "coerce")` on one cell, for ISO dates: a
well-formed year-month-day string parses, anything else coerces to absent. -/
def parseDate (s : String) : Option Date :=
  match splitDash s.toList with
  | [ys, ms, ds] =>
    match parseNatChars ys, parseNatChars ms, parseNatChars ds with
    | some y, some m, some d =>
      if 1 ≤ m ∧ m ≤ 12 ∧ 1 ≤ d ∧ d ≤ daysInMonth y m then some ⟨y, m, d⟩
      else none
    | _, _, _ => none
  | _ => none


/-- Embedding of `pd.to_numeric(errors = "coerce").astype("Int64")` on one cell: an integer
string parses, anything else coerces to absent. -/
def parseStatus (s : String) : Option Int :=
  match s.toList with
  | c :: rest =>
    if c.toNat = 45 then (parseNatChars rest).map (fun n => -(n : Int))
    else (parseNatChars (c :: rest)).map (fun n => (n : Int))
  | [] => none


/-- Row normalization: a total function, no cell value can abort it. -/
def normalizeRow (r : RawRow) : CoreRow :=
  ⟨String.mk (trimChars r.record_id.toList), r.event_name,
    parseDate r.test_date, parseDate r.visit_date,
    parseStatus r.participant_status, parseDate r.primary_endpoint_date,
    parseDate r.secondary_endpoint_date⟩


def normalizeTable (rs : List RawRow) : List CoreRow :=
  rs.map normalizeRow


/-- Specification instantiated by the amended claim C7. -/
def columnCheckSpec (co : Columns) : Prop :=
  (requiredColumnCheck co = Except.ok () ↔
    co.record_id = true ∧ co.participant_status = true ∧ co.event_name = true
      ∧ co.test_date = true) ∧
  (co.record_id = false → requiredColumnCheck co = Except.error "record_id") ∧
  (co.record_id = true → co.participant_status = false →
    requiredColumnCheck co = Except.error "participant_status") ∧
  (co.record_id = true → co.participant_status = true → co.event_name = false →
    requiredColumnCheck co = Except.error "event_name") ∧
  (co.record_id = true → co.participant_status = true → co.event_name = true →
    co.test_date = false → co.visit_date = false →
    requiredColumnCheck co = Except.error "test_date, visit_date") ∧
  (co.record_id = true → co.participant_status = true → co.event_name = true →
    co.test_date = false → co.visit_date = true →
    requiredColumnCheck co = Except.error "test_date") ∧
  (co.record_id = true → co.participant_status = true → co.event_name = true →
    co.test_date = true →
    requiredColumnCheck co = Except.ok ())


/-!
Theorems: the claims settled against the embedding above, with their
supporting lemmas and witnesses.
-/

theorem daysInMonth_pos (y m : Nat) : 28 ≤ daysInMonth y m := by
  unfold daysInMonth
  split
  · split <;> omega
  · split <;> omega


/-- C9: scheduled-date arithmetic is calendar month addition with day
clamping: for every valid baseline date and month offset `n`, the target month
is exactly `n` months later, the day-of-month is preserved when it exists and
clamped to the last valid day of the target month otherwise; the result is
always a valid date; in particular 2023-01-31 plus one month is 2023-02-28 and
2024-01-31 plus one month is 2024-02-29, never an error and never 2023-03-03. -/
theorem addMonths_calendar_clamp (d : Date) (n : Nat) (h : ValidDate d) :
    addMonthsSpec d n := by
  obtain ⟨hm1, hm2, hd1, hd2⟩ := h
  have hdim : 28 ≤ daysInMonth (addMonths d n).year (addMonths d n).month :=
    daysInMonth_pos _ _
  refine ⟨?_, ?_, rfl, ?_, by decide, by decide⟩
  · refine ⟨?_, ?_, ?_, ?_⟩
    · show 1 ≤ (d.month - 1 + n) % 12 + 1
      omega
    · show (d.month - 1 + n) % 12 + 1 ≤ 12
      have := Nat.mod_lt (d.month - 1 + n) (show 0 < 12 by omega)
      omega
    · show 1 ≤ min d.day (daysInMonth (addMonths d n).year (addMonths d n).month)
      omega
    · show min d.day (daysInMonth (addMonths d n).year (addMonths d n).month)
        ≤ daysInMonth (addMonths d n).year (addMonths d n).month
      omega
  · show (d.year + (d.month - 1 + n) / 12) * 12 + ((d.month - 1 + n) % 12 + 1 - 1)
      = d.year * 12 + (d.month - 1) + n
    have := Nat.div_add_mod (d.month - 1 + n) 12
    omega
  · intro hle
    show min d.day (daysInMonth (addMonths d n).year (addMonths d n).month) = d.day
    omega


/-- Witness for C9 at the concrete rollover input. -/
theorem addMonths_calendar_clamp_witness : addMonthsSpec ⟨2023, 1, 31⟩ 1 :=
  addMonths_calendar_clamp ⟨2023, 1, 31⟩ 1 (by decide)


/-!
Claims C1, C2, C3, C10, settled against the engine definitions above.
-/
theorem checkEvent_le_one (sched : Date) (p : Option Date) :
    (checkEvent sched p).1 + (checkEvent sched p).2 ≤ 1 := by
  cases p with
  | none => simp [checkEvent]
  | some d =>
    by_cases hiw : inWindow sched d = true <;> simp [checkEvent, hiw]


theorem followup_fold_bound (perf : String → String → Option Date) (pid : String)
    (status : Int) (base : Date) (endpt : Option Date) :
    ∀ (l : List (Nat × String)) (acc : Nat × Nat),
      (l.foldl (followupStep perf pid status base endpt) acc).1
          + (l.foldl (followupStep perf pid status base endpt) acc).2
        ≤ acc.1 + acc.2 + l.length := by
  intro l
  induction l with
  | nil => intro acc; simp
  | cons e t ih =>
    intro acc
    simp only [List.foldl_cons, List.length_cons]
    have hstep : (followupStep perf pid status base endpt acc e).1
        + (followupStep perf pid status base endpt acc e).2 ≤ acc.1 + acc.2 + 1 := by
      unfold followupStep
      split
      · have := checkEvent_le_one (addMonths base e.1) (perf pid e.2)
        omega
      · omega
    have := ih (followupStep perf pid status base endpt acc e)
    omega


/-- C10: whenever counts are computed for a participant, the missed and
outside-window counts are natural numbers, every expected event (the baseline
plus each schedule entry) contributes to at most one of the two counts, their
sum is at most one plus the number of schedule entries, and the stored total
is exactly their sum. -/
theorem deviation_counts_invariant (perf : String → String → Option Date)
    (pid : String) (info : PInfo) (c : Counts)
    (h : computeCounts perf pid info = some c) : countsInvariantSpec c := by
  simp only [computeCounts] at h
  split at h
  · exact absurd h (by simp)
  · rw [Option.some_inj] at h
    subst h
    unfold countsInvariantSpec
    refine ⟨rfl, ?_, fun sched p => checkEvent_le_one sched p⟩
    have key : ∀ b : Nat × Nat, b.1 + b.2 ≤ 1 →
        (EXPECTED_FOLLOWUP_SCHEDULE.foldl
            (followupStep perf pid info.status info.base
              (participant_end_point_date info)) b).1
          + (EXPECTED_FOLLOWUP_SCHEDULE.foldl
              (followupStep perf pid info.status info.base
                (participant_end_point_date info)) b).2
          ≤ 1 + EXPECTED_FOLLOWUP_SCHEDULE.length := by
      intro b hb
      have := followup_fold_bound perf pid info.status info.base
        (participant_end_point_date info) EXPECTED_FOLLOWUP_SCHEDULE b
      omega
    apply key
    split
    · exact checkEvent_le_one _ _
    · simp


/-- Witness for C10: status 1, nothing performed, all ten expected tests are
missed. -/
theorem deviation_counts_invariant_witness : countsInvariantSpec ⟨10, 0, 10⟩ :=
  deviation_counts_invariant (fun _ _ => none) "p1" ⟨⟨2022, 1, 1⟩, 1, none, none⟩
    ⟨10, 0, 10⟩ (by decide)


theorem inWindow_iff (s p : Date) :
    inWindow s p = true ↔
      s.toRD - (GRACE_DAYS : Int) ≤ p.toRD
        ∧ p.toRD ≤ s.toRD + (GRACE_DAYS : Int) := by
  unfold inWindow
  simp [Bool.and_eq_true]


/-- C2: an expected test with a performed date is on-time (neither count moves)
exactly when the performed date lies in the inclusive window
`[scheduled - GRACE_DAYS, scheduled + GRACE_DAYS]` with the 14-day grace
period; at exactly the bounds it is on-time, one day further out it increments
the outside-window count. -/
theorem grace_window_inclusive (s p : Date) : graceWindowSpec s p := by
  unfold graceWindowSpec
  by_cases hiw : inWindow s p = true
  · have hin := (inWindow_iff s p).mp hiw
    have hce : checkEvent s (some p) = (0, 0) := by simp [checkEvent, hiw]
    refine ⟨rfl, ?_, ?_, fun _ => hce, fun _ => hce, ?_, ?_⟩
    · rw [hce]; exact iff_of_true rfl hin
    · rw [hce]
      exact ⟨fun h => absurd h (by decide), fun h => absurd hin h⟩
    · intro hp; exact absurd hin (by omega)
    · intro hp; exact absurd hin (by omega)
  · have hnin : ¬(s.toRD - (GRACE_DAYS : Int) ≤ p.toRD
        ∧ p.toRD ≤ s.toRD + (GRACE_DAYS : Int)) :=
      fun h => hiw ((inWindow_iff s p).mpr h)
    have hce : checkEvent s (some p) = (0, 1) := by simp [checkEvent, hiw]
    refine ⟨rfl, ?_, ?_, ?_, ?_, fun _ => hce, fun _ => hce⟩
    · rw [hce]
      exact ⟨fun h => absurd h (by decide), fun h => absurd h hnin⟩
    · rw [hce]; exact iff_of_true rfl hnin
    · intro hp
      exact absurd (show s.toRD - (GRACE_DAYS : Int) ≤ p.toRD
        ∧ p.toRD ≤ s.toRD + (GRACE_DAYS : Int) by omega) hnin
    · intro hp
      exact absurd (show s.toRD - (GRACE_DAYS : Int) ≤ p.toRD
        ∧ p.toRD ≤ s.toRD + (GRACE_DAYS : Int) by omega) hnin


/-- Witness for C2 at a performed date exactly 14 days after the scheduled
date. -/
theorem grace_window_inclusive_witness :
    graceWindowSpec ⟨2022, 3, 1⟩ ⟨2022, 3, 15⟩ :=
  grace_window_inclusive ⟨2022, 3, 1⟩ ⟨2022, 3, 15⟩


/-- C3: a schedule entry whose scheduled date (baseline plus offset months)
falls strictly after a resolved horizon is not expected, and the follow-up
loop leaves both counts unchanged on it, whether or not a performed date
exists for the event. -/
theorem horizon_cutoff (perf : String → String → Option Date) (pid : String)
    (status : Int) (base h : Date) (acc : Nat × Nat) (off : Nat) (ev : String)
    (hlate : dle (addMonths base off) h = false) :
    isExpectedFollowup status (some h) (addMonths base off) = false ∧
    followupStep perf pid status base (some h) acc (off, ev) = acc := by
  constructor
  · simpa [isExpectedFollowup] using hlate
  · simp [followupStep, isExpectedFollowup, hlate]


/-- Witness for C3: status 2 horizon 2022-02-15, entry scheduled 2022-03-01
with a performed date present, counts unchanged. -/
theorem horizon_cutoff_witness :
    isExpectedFollowup 2 (some ⟨2022, 2, 15⟩) (addMonths ⟨2022, 1, 1⟩ 2) = false ∧
    followupStep (fun _ _ => some ⟨2022, 3, 20⟩) "p2" 2 ⟨2022, 1, 1⟩
        (some ⟨2022, 2, 15⟩) (0, 0) (2, "followup_visit_1") = (0, 0) :=
  horizon_cutoff (fun _ _ => some ⟨2022, 3, 20⟩) "p2" 2 ⟨2022, 1, 1⟩
    ⟨2022, 2, 15⟩ (0, 0) 2 "followup_visit_1" (by decide)


/-- C1: with a resolved effective baseline, the end-of-schedule horizon is
selected by the status code alone: status 1 takes baseline plus the maximum
schedule offset in months with both endpoint dates ignored; status 2 takes the
primary endpoint date and the participant is dropped (no counts) when it is
absent; status 3 or 4 takes the secondary endpoint date, dropped when absent;
any other status yields no computation at all. -/
theorem horizon_status_policy (info : PInfo)
    (perf : String → String → Option Date) (pid : String) :
    (info.status = 1 →
      participant_end_point_date info = some (addMonths info.base maxMonthOffset) ∧
      (∀ e1 e2 : Option Date,
        participant_end_point_date ⟨info.base, info.status, e1, e2⟩
          = some (addMonths info.base maxMonthOffset)) ∧
      (computeCounts perf pid info).isSome = true) ∧
    (info.status = 2 →
      participant_end_point_date info = info.ep1 ∧
      (info.ep1 = none → computeCounts perf pid info = none) ∧
      (info.ep1.isSome = true → (computeCounts perf pid info).isSome = true)) ∧
    ((info.status = 3 ∨ info.status = 4) →
      participant_end_point_date info = info.ep2 ∧
      (info.ep2 = none → computeCounts perf pid info = none) ∧
      (info.ep2.isSome = true → (computeCounts perf pid info).isSome = true)) ∧
    (∀ rows : List CoreRow, participantInfo rows pid = some info →
      ¬(info.status = 1 ∨ info.status = 2 ∨ info.status = 3 ∨ info.status = 4) →
      calculatedCounts rows pid = none) := by
  refine ⟨?_, ?_, ?_, ?_⟩
  · intro h1
    have hpe : participant_end_point_date info
        = some (addMonths info.base maxMonthOffset) := by
      simp [participant_end_point_date, h1]
    refine ⟨hpe, fun e1 e2 => by simp [participant_end_point_date, h1], ?_⟩
    simp [computeCounts, hpe, h1]
  · intro h2
    have hpe : participant_end_point_date info = info.ep1 := by
      cases he : info.ep1 with
      | none => simp [participant_end_point_date, h2, he]
      | some d => simp [participant_end_point_date, h2, he]
    refine ⟨hpe, ?_, ?_⟩
    · intro he
      simp [computeCounts, hpe, he, h2]
    · intro he
      cases hd : info.ep1 with
      | none => rw [hd] at he; simp at he
      | some d => simp [computeCounts, hpe, hd, h2]
  · intro h34
    have h2ne : ¬info.status = 2 := by rcases h34 with h | h <;> omega
    have hpe : participant_end_point_date info = info.ep2 := by
      cases he : info.ep2 with
      | none =>
        rcases h34 with h | h <;> simp [participant_end_point_date, h, he]
      | some d =>
        rcases h34 with h | h <;> simp [participant_end_point_date, h, he]
    refine ⟨hpe, ?_, ?_⟩
    · intro he
      rcases h34 with h | h <;> simp [computeCounts, hpe, he, h]
    · intro he
      cases hd : info.ep2 with
      | none => rw [hd] at he; simp at he
      | some d => rcases h34 with h | h <;> simp [computeCounts, hpe, hd, h]
  · intro rows hinfo hstat
    simp only [calculatedCounts, hinfo]
    rw [if_neg hstat]


/-- Witness for C1: a status-2 participant with no primary endpoint date has
no horizon and is dropped. -/
theorem horizon_status_policy_witness :
    participant_end_point_date ⟨⟨2022, 1, 1⟩, 2, none, none⟩ = none ∧
    computeCounts (fun _ _ => none) "p9" ⟨⟨2022, 1, 1⟩, 2, none, none⟩ = none := by
  have h := horizon_status_policy ⟨⟨2022, 1, 1⟩, 2, none, none⟩
    (fun _ _ => none) "p9"
  exact ⟨(h.2.1 rfl).1, (h.2.1 rfl).2.1 rfl⟩


theorem earliestFirst_go : ∀ (l : List Date) (d0 : Date), ∃ d,
    l.foldl earliestStep (some d0) = some d ∧
      ((d = d0 ∧ ∀ x ∈ l, d0.toRD ≤ x.toRD) ∨
        ∃ l₁ l₂, l = l₁ ++ d :: l₂ ∧ d.toRD < d0.toRD ∧
          (∀ x ∈ l₁, d.toRD < x.toRD) ∧ ∀ x ∈ l₂, d.toRD ≤ x.toRD) := by
  intro l
  induction l with
  | nil => intro d0; exact ⟨d0, rfl, Or.inl ⟨rfl, by simp⟩⟩
  | cons a t ih =>
    intro d0
    rw [List.foldl_cons]
    by_cases hlt : a.toRD < d0.toRD
    · have hstep : earliestStep (some d0) a = some a := by
        simp [earliestStep, hlt]
      rw [hstep]
      obtain ⟨d, hfold, hcase⟩ := ih a
      refine ⟨d, hfold, ?_⟩
      rcases hcase with ⟨rfl, hall⟩ | ⟨l₁, l₂, heq, hda, h₁, h₂⟩
      · exact Or.inr ⟨[], t, by simp, hlt, by simp, hall⟩
      · refine Or.inr ⟨a :: l₁, l₂, by simp [heq], by omega, ?_, h₂⟩
        intro x hx
        rcases List.mem_cons.mp hx with rfl | hx
        · omega
        · exact h₁ x hx
    · have hstep : earliestStep (some d0) a = some d0 := by
        simp [earliestStep, hlt]
      rw [hstep]
      obtain ⟨d, hfold, hcase⟩ := ih d0
      refine ⟨d, hfold, ?_⟩
      rcases hcase with ⟨rfl, hall⟩ | ⟨l₁, l₂, heq, hda, h₁, h₂⟩
      · refine Or.inl ⟨rfl, ?_⟩
        intro x hx
        rcases List.mem_cons.mp hx with rfl | hx
        · omega
        · exact hall x hx
      · refine Or.inr ⟨a :: l₁, l₂, by simp [heq], hda, ?_, h₂⟩
        intro x hx
        rcases List.mem_cons.mp hx with rfl | hx
        · omega
        · exact h₁ x hx


theorem earliestFirst_decomp (l : List Date) (d : Date)
    (h : earliestFirst l = some d) :
    ∃ l₁ l₂, l = l₁ ++ d :: l₂ ∧
      (∀ x ∈ l₁, d.toRD < x.toRD) ∧ ∀ x ∈ l₂, d.toRD ≤ x.toRD := by
  cases l with
  | nil => exact absurd h (by simp [earliestFirst])
  | cons a t =>
    have hfold : earliestFirst (a :: t) = t.foldl earliestStep (some a) := by
      rw [earliestFirst, List.foldl_cons]
      rfl
    obtain ⟨d', hfold', hcase⟩ := earliestFirst_go t a
    rw [hfold, hfold', Option.some_inj] at h
    subst h
    rcases hcase with ⟨rfl, hall⟩ | ⟨l₁, l₂, heq, hda, h₁, h₂⟩
    · exact ⟨[], t, by simp, by simp, hall⟩
    · refine ⟨a :: l₁, l₂, by simp [heq], ?_, h₂⟩
      intro x hx
      rcases List.mem_cons.mp hx with rfl | hx
      · omega
      · exact h₁ x hx


theorem earliestFirst_none_iff (l : List Date) :
    earliestFirst l = none ↔ l = [] := by
  cases l with
  | nil => simp [earliestFirst]
  | cons a t =>
    have hfold : earliestFirst (a :: t) = t.foldl earliestStep (some a) := by
      rw [earliestFirst, List.foldl_cons]
      rfl
    obtain ⟨d', hfold', _⟩ := earliestFirst_go t a
    rw [hfold, hfold']
    simp


theorem mem_performedDates (rows : List CoreRow) (pid ev : String) (d : Date) :
    d ∈ performedDates rows pid ev ↔
      ∃ r, r ∈ rows ∧ r.record_id = pid ∧ r.event_name = ev ∧ pid ≠ ""
        ∧ ALL_TEST_EVENT_NAMES.contains ev = true ∧ r.test_date = some d := by
  unfold performedDates
  simp only [List.mem_filterMap, List.mem_filter, Bool.and_eq_true, beq_iff_eq,
    bne_iff_ne, ne_eq, Option.isSome_iff_exists]
  constructor
  · rintro ⟨r, ⟨hr, ⟨⟨⟨hcont, -⟩, hne⟩, hpid⟩, hev⟩, htd⟩
    exact ⟨r, hr, hpid, hev, hpid ▸ hne, hev ▸ hcont, htd⟩
  · rintro ⟨r, hr, hpid, hev, hne, hcont, htd⟩
    exact ⟨r, ⟨hr, ⟨⟨⟨hev ▸ hcont, ⟨d, htd⟩⟩, hpid ▸ hne⟩, hpid⟩, hev⟩, htd⟩


/-- C6: the Performed-Test Index has an entry for a (participant, event) key
exactly when some row carries the key with a non-empty id, a tracked event
name and a present test date; the stored date comes from a matching row, is
the earliest matching date, and on a tie the earlier input row wins: every row
before the winning one is strictly later, every row after it is no earlier. -/
theorem performed_index_earliest (rows : List CoreRow) (pid ev : String) :
    performedIndexSpec rows pid ev := by
  refine ⟨?_, ?_, fun d => mem_performedDates rows pid ev d⟩
  · exact earliestFirst_none_iff (performedDates rows pid ev)
  · intro d h
    exact earliestFirst_decomp (performedDates rows pid ev) d h


/-- Witness for C6: two rows for the same key with the same earliest date; the
index stores that date and decomposes at the first of the two rows. -/
theorem performed_index_earliest_witness :
    performedIndexSpec
      [⟨"p1", "followup_visit_1", some ⟨2022, 3, 5⟩, none, none, none, none⟩,
       ⟨"p1", "followup_visit_1", some ⟨2022, 3, 5⟩, none, none, none, none⟩,
       ⟨"p1", "followup_visit_1", some ⟨2022, 3, 9⟩, none, none, none, none⟩]
      "p1" "followup_visit_1" :=
  performed_index_earliest _ "p1" "followup_visit_1"


/-!
Structural lemmas: every phase of the pipeline touches only the three count
columns, so the columns the computation reads are the same before and after.
-/
theorem coreOf_cons (r : Row) (rs : List Row) :
    coreOf (r :: rs) = r.toCoreRow :: coreOf rs := rfl


theorem coreOf_clearCounts (rows : List Row) :
    coreOf (clearCounts rows) = coreOf rows := by
  unfold coreOf clearCounts
  rw [List.map_map]
  rfl


theorem clearCounts_factor (rows : List Row) :
    clearCounts rows = (coreOf rows).map rowOfCore := by
  unfold clearCounts coreOf
  rw [List.map_map]
  rfl


theorem coreOf_writeAll (counts : String → Option Counts) :
    ∀ (l : List Row) (done : List String),
      coreOf (writeAll counts done l) = coreOf l := by
  intro l
  induction l with
  | nil => intro done; rfl
  | cons r rs ih =>
    intro done
    unfold writeAll
    split
    · rw [coreOf_cons, coreOf_cons, ih]
      congr 1
      cases counts r.record_id <;> rfl
    · rw [coreOf_cons, coreOf_cons, ih]


theorem coreOf_blank (excl : String → Bool) (l : List Row) :
    coreOf (l.map fun r => if excl r.record_id then clearRow r else r)
      = coreOf l := by
  induction l with
  | nil => rfl
  | cons r rs ih =>
    rw [List.map_cons, coreOf_cons, coreOf_cons, ih]
    congr 1
    split <;> rfl


theorem coreOf_pipeline (rows : List Row) :
    coreOf (pipeline rows) = coreOf rows := by
  simp only [pipeline]
  rw [coreOf_blank, coreOf_writeAll, coreOf_clearCounts]


theorem pipeline_eq_of_coreOf_eq {a b : List Row} (h : coreOf a = coreOf b) :
    pipeline a = pipeline b := by
  have hc : clearCounts a = clearCounts b := by
    rw [clearCounts_factor, clearCounts_factor, h]
  simp only [pipeline]
  rw [hc]


/-- C5: the engine is idempotent: the pipeline run a second time on its own
output is the identity, and the per-participant DeviationRecords computed from
the output equal those computed from the input; the computed counts depend only
on the non-count columns, which the pipeline never modifies. -/
theorem engine_idempotent (rows : List Row) :
    pipeline (pipeline rows) = pipeline rows ∧
    ∀ pid, calculatedCounts (coreOf (pipeline rows)) pid
      = calculatedCounts (coreOf rows) pid := by
  have hcore := coreOf_pipeline rows
  exact ⟨pipeline_eq_of_coreOf_eq hcore, fun pid => by rw [hcore]⟩


/-- Witness for C5 at a concrete two-row table. -/
theorem engine_idempotent_witness :
    pipeline (pipeline exampleRows2) = pipeline exampleRows2 ∧
    ∀ pid, calculatedCounts (coreOf (pipeline exampleRows2)) pid
      = calculatedCounts (coreOf exampleRows2) pid :=
  engine_idempotent exampleRows2


/-- C4: a participant whose baseline row carries status 5 has all three count
columns blank on every row that belongs to the participant in the final
output, overriding any computed or previously persisted value. -/
theorem status5_blanked (rows : List Row) (pid : String) (r0 : Row)
    (h0 : r0 ∈ rows) (hb : r0.event_name = BASELINE_EVENT_NAME)
    (hid : r0.record_id = pid) (hne : pid ≠ "")
    (h5 : r0.participant_status = some 5) :
    ∀ r ∈ pipeline rows, r.record_id = pid →
      r.missed_test_count = none ∧ r.outside_window_test_count = none ∧
        r.total_test_deviations = none := by
  have hmem : r0.toCoreRow ∈ coreOf (clearCounts rows) := by
    rw [coreOf_clearCounts]
    exact List.mem_map_of_mem _ h0
  have hexcl : excludedPid (coreOf (clearCounts rows)) pid = true := by
    unfold excludedPid
    rw [List.any_eq_true]
    refine ⟨r0.toCoreRow, hmem, ?_⟩
    simp only [Bool.and_eq_true, beq_iff_eq, bne_iff_ne, ne_eq,
      decide_eq_true_eq]
    exact ⟨⟨⟨hb, hid ▸ hne⟩, hid⟩, h5⟩
  intro r hr hrid
  simp only [pipeline] at hr
  rw [List.mem_map] at hr
  obtain ⟨r', hr', heq⟩ := hr
  by_cases he : excludedPid (coreOf (clearCounts rows)) r'.record_id = true
  · rw [if_pos he] at heq
    subst heq
    exact ⟨rfl, rfl, rfl⟩
  · rw [if_neg he] at heq
    subst heq
    rw [hrid] at he
    exact absurd hexcl he


/-- Witness for C4: the previously persisted counts of the status-5
participant are blanked on its baseline row. -/
theorem status5_blanked_witness :
    (⟨⟨"p5", BASELINE_EVENT_NAME, some ⟨2022, 1, 1⟩, none, some 5, none, none⟩,
        none, none, none⟩ : Row).missed_test_count = none ∧
    (⟨⟨"p5", BASELINE_EVENT_NAME, some ⟨2022, 1, 1⟩, none, some 5, none, none⟩,
        none, none, none⟩ : Row).outside_window_test_count = none ∧
    (⟨⟨"p5", BASELINE_EVENT_NAME, some ⟨2022, 1, 1⟩, none, some 5, none, none⟩,
        none, none, none⟩ : Row).total_test_deviations = none :=
  status5_blanked exampleRows "p5"
    ⟨⟨"p5", BASELINE_EVENT_NAME, some ⟨2022, 1, 1⟩, none, some 5, none, none⟩,
      some 3, some 2, some 5⟩
    (by decide) rfl rfl (by decide) rfl
    ⟨⟨"p5", BASELINE_EVENT_NAME, some ⟨2022, 1, 1⟩, none, some 5, none, none⟩,
      none, none, none⟩
    (by decide) rfl


theorem calculatedCounts_ne_empty {rows : List CoreRow} {pid : String}
    {c : Counts} (h : calculatedCounts rows pid = some c) : pid ≠ "" := by
  unfold calculatedCounts at h
  cases hb : participantInfo rows pid with
  | none => rw [hb] at h; exact absurd h (by simp)
  | some info =>
    unfold participantInfo at hb
    cases hbrow : baselineRowFor rows pid with
    | none => rw [hbrow] at hb; exact absurd hb (by simp)
    | some r =>
      unfold baselineRowFor at hbrow
      have hpred := List.find?_some hbrow
      simp only [Bool.and_eq_true, beq_iff_eq, bne_iff_ne, ne_eq] at hpred
      obtain ⟨⟨-, hpid⟩, hne⟩ := hpred
      rw [hpid] at hne
      exact hne


theorem writeAll_mem (counts : String → Option Counts) :
    ∀ (l : List Row) (done : List String),
      (∀ r ∈ l, r.missed_test_count = none ∧ r.outside_window_test_count = none
        ∧ r.total_test_deviations = none) →
      ∀ r ∈ writeAll counts done l,
        (r.missed_test_count = none ∧ r.outside_window_test_count = none
          ∧ r.total_test_deviations = none) ∨
        ∃ c, counts r.record_id = some c ∧ r.event_name = BASELINE_EVENT_NAME ∧
          r.missed_test_count = some c.missed ∧
          r.outside_window_test_count = some c.outside ∧
          r.total_test_deviations = some c.total := by
  intro l
  induction l with
  | nil => intro done _ r hr; exact absurd hr (by simp [writeAll])
  | cons x xs ih =>
    intro done hall r hr
    have htail : ∀ r ∈ xs, r.missed_test_count = none
        ∧ r.outside_window_test_count = none
        ∧ r.total_test_deviations = none :=
      fun r hr => hall r (List.mem_cons_of_mem _ hr)
    unfold writeAll at hr
    split at hr
    case isTrue hcond =>
      rcases List.mem_cons.mp hr with rfl | hr'
      · have hev : x.event_name = BASELINE_EVENT_NAME := by
          rcases Bool.and_eq_true_iff.mp hcond with ⟨hev, -⟩
          exact beq_iff_eq.mp hev
        cases hc : counts x.record_id with
        | none => exact Or.inl (hall x (List.mem_cons_self x xs))
        | some c =>
          exact Or.inr ⟨c, hc, hev, rfl, rfl, rfl⟩
      · exact ih (x.record_id :: done) htail r hr'
    case isFalse =>
      rcases List.mem_cons.mp hr with rfl | hr'
      · exact Or.inl (hall _ (List.mem_cons_self _ xs))
      · exact ih done htail r hr'


theorem countP_cons_le {p : Row → Bool} {a : Row} {l : List Row} {n : Nat}
    (hl : l.countP p ≤ n) (ha : p a = false) : (a :: l).countP p ≤ n := by
  rw [List.countP_cons, ha]
  simpa using hl


theorem countP_cons_le_one {p : Row → Bool} {a : Row} {l : List Row}
    (hl : l.countP p ≤ 0) : (a :: l).countP p ≤ 1 := by
  rw [List.countP_cons]
  split <;> omega


theorem writeAll_countP (counts : String → Option Counts) (pid : String) :
    ∀ (l : List Row) (done : List String),
      (∀ r ∈ l, hasCounts r = false) →
      (writeAll counts done l).countP
          (fun r => r.record_id == pid && hasCounts r)
        ≤ if done.contains pid then 0 else 1 := by
  intro l
  induction l with
  | nil =>
    intro done _
    simp only [writeAll, List.countP_nil]
    split <;> omega
  | cons x xs ih =>
    intro done hall
    have htail : ∀ r ∈ xs, hasCounts r = false :=
      fun r hr => hall r (List.mem_cons_of_mem _ hr)
    unfold writeAll
    split
    case isTrue hcond =>
      have hridhead : (match counts x.record_id with
          | some c => setCounts x c
          | none => x).record_id = x.record_id := by
        cases counts x.record_id <;> rfl
      by_cases hpx : x.record_id = pid
      · have hdone : done.contains pid = false := by
          rcases Bool.and_eq_true_iff.mp hcond with ⟨-, hnd⟩
          rw [Bool.not_eq_eq_eq_not, Bool.not_true] at hnd
          rw [← hpx]
          exact hnd
        have hcontains : (x.record_id :: done).contains pid = true := by
          simp [List.contains_cons, hpx]
        have ht := ih (x.record_id :: done) htail
        rw [hcontains] at ht
        rw [hdone]
        exact countP_cons_le_one (by simpa using ht)
      · have hcontains : (x.record_id :: done).contains pid
            = done.contains pid := by
          simp only [List.contains_cons]
          have hne : (pid == x.record_id) = false := by
            simp only [beq_eq_false_iff_ne, ne_eq]
            exact fun h => hpx h.symm
          rw [hne, Bool.false_or]
        have ht := ih (x.record_id :: done) htail
        rw [hcontains] at ht
        refine countP_cons_le ht ?_
        show ((match counts x.record_id with
            | some c => setCounts x c
            | none => x).record_id == pid
          && hasCounts (match counts x.record_id with
            | some c => setCounts x c
            | none => x)) = false
        rw [hridhead, beq_eq_false_iff_ne.mpr hpx, Bool.false_and]
    case isFalse =>
      refine countP_cons_le (ih done htail) ?_
      show (x.record_id == pid && hasCounts x) = false
      rw [hall x (List.mem_cons_self x xs), Bool.and_false]


theorem countP_blank_le (excl : String → Bool) (p : Row → Bool)
    (hp : ∀ r, p (clearRow r) = false) (l : List Row) :
    (l.map fun r => if excl r.record_id then clearRow r else r).countP p
      ≤ l.countP p := by
  induction l with
  | nil => simp
  | cons x xs ih =>
    rw [List.map_cons, List.countP_cons, List.countP_cons]
    have hhead : (if p (if excl x.record_id then clearRow x else x) = true
          then 1 else 0)
        ≤ if p x = true then 1 else 0 := by
      by_cases he : excl x.record_id = true
      · rw [if_pos he, hp x]
        simp only [Bool.false_eq_true, if_false]
        exact Nat.zero_le _
      · rw [if_neg he]
    exact Nat.add_le_add ih hhead


theorem hasCounts_clearRow (r : Row) : hasCounts (clearRow r) = false := rfl


theorem clearCounts_all_none (rows : List Row) :
    ∀ r ∈ clearCounts rows, r.missed_test_count = none
      ∧ r.outside_window_test_count = none
      ∧ r.total_test_deviations = none := by
  intro r hr
  obtain ⟨r', -, rfl⟩ := List.mem_map.mp hr
  exact ⟨rfl, rfl, rfl⟩


theorem clearCounts_no_hasCounts (rows : List Row) :
    ∀ r ∈ clearCounts rows, hasCounts r = false := by
  intro r hr
  obtain ⟨r', -, rfl⟩ := List.mem_map.mp hr
  rfl


/-- C8: the pipeline modifies nothing but the three count columns (row order
and length included); a row of the final output carries a count only if it is
a baseline-event row with a non-empty id of a non-excluded participant for
whom counts were computed, in which case it carries exactly the computed
triple; every other row has all three columns blank; and at most one row per
participant carries counts. -/
theorem counts_on_baseline_row_only (rows : List Row) : frameEffectSpec rows := by
  refine ⟨coreOf_pipeline rows, ?_, ?_, ?_⟩
  · have h := congrArg List.length (coreOf_pipeline rows)
    simpa [coreOf] using h
  · intro r hr
    simp only [pipeline] at hr
    rw [List.mem_map] at hr
    obtain ⟨r', hr', heq⟩ := hr
    by_cases he : excludedPid (coreOf (clearCounts rows)) r'.record_id = true
    · rw [if_pos he] at heq
      subst heq
      exact Or.inl ⟨rfl, rfl, rfl⟩
    · rw [if_neg he] at heq
      subst heq
      have hwa := writeAll_mem (calculatedCounts (coreOf (clearCounts rows)))
        (clearCounts rows) [] (clearCounts_all_none rows) r' hr'
      rcases hwa with hnone | ⟨c, hc, hev, h1, h2, h3⟩
      · exact Or.inl hnone
      · rw [coreOf_clearCounts] at hc he
        refine Or.inr ⟨c, hc, hev, calculatedCounts_ne_empty hc, ?_, h1, h2, h3⟩
        exact Bool.not_eq_true _ ▸ he
  · intro pid
    simp only [pipeline]
    have h1 := writeAll_countP (calculatedCounts (coreOf (clearCounts rows))) pid
      (clearCounts rows) [] (clearCounts_no_hasCounts rows)
    have h2 := countP_blank_le (excludedPid (coreOf (clearCounts rows)))
      (fun r => r.record_id == pid && hasCounts r)
      (fun r => by
        show ((clearRow r).record_id == pid && hasCounts (clearRow r)) = false
        rw [hasCounts_clearRow, Bool.and_false])
      (writeAll (calculatedCounts (coreOf (clearCounts rows))) []
        (clearCounts rows))
    have h1' : (writeAll (calculatedCounts (coreOf (clearCounts rows))) []
        (clearCounts rows)).countP
          (fun r => r.record_id == pid && hasCounts r) ≤ 1 := by
      simpa using h1
    omega


/-- Witness for C8 at a concrete two-row table: the computed triple sits on
the baseline row only. -/
theorem counts_on_baseline_row_only_witness : frameEffectSpec exampleRows2 :=
  counts_on_baseline_row_only exampleRows2


/-- Counterexample to C7 as stated: with the primary-endpoint date column
absent from the table (a configured date column) and every other column
present, the run does not abort and proceeds to compute counts, and the same
holds with the visit-date column absent; so a missing configured date column
does not in general abort the run. -/
theorem missing_date_column_does_not_abort :
    requiredColumnCheck ⟨true, true, true, true, true, false, true⟩
        = Except.ok () ∧
    requiredColumnCheck ⟨true, true, false, true, true, true, true⟩
        = Except.ok () := ⟨rfl, rfl⟩


/-- C7 (amended): the run aborts before computing any counts exactly when the
participant-id, status, event-name or test-date column is absent, and every
abort names the missing column: the id, status and event columns and the
both-baseline-dates case through the scripted exits with their messages, and
the test-date column with the visit-date column present through the uncaught
KeyError of the unguarded performed-test filter; a missing visit-date column
alone, or a missing endpoint date column, only warns and the run proceeds; and
malformed individual cell values never abort: normalization is total, keeps
every row, and coerces unparseable values to absent. -/
theorem column_check_and_row_normalization (co : Columns) (rs : List RawRow) :
    columnCheckSpec co ∧
    (normalizeTable rs).length = rs.length ∧
    (∀ r ∈ rs, normalizeRow r ∈ normalizeTable rs) ∧
    parseDate "not a date" = none ∧
    parseStatus "n/a" = none ∧
    normalizeRow ⟨" p1 ", "study_baseline", "garbage", "2022-13-45", "x",
      "", "?"⟩ = ⟨"p1", "study_baseline", none, none, none, none, none⟩ := by
  refine ⟨?_, by simp [normalizeTable], ?_, by decide, by decide, by decide⟩
  · obtain ⟨a, b, c, d, e, f, g⟩ := co
    unfold columnCheckSpec
    cases a <;> cases b <;> cases c <;> cases d <;> cases e <;> cases f <;>
      cases g <;>
      exact ⟨by decide, by decide, by decide, by decide, by decide, by decide,
        by decide⟩
  · intro r hr
    exact List.mem_map_of_mem _ hr


/-- Witness for C7 at a concrete column set and raw table. -/
theorem column_check_and_row_normalization_witness :
    columnCheckSpec ⟨true, true, true, true, true, false, true⟩ ∧
    (normalizeTable [⟨"p1", "study_baseline", "2022-01-01", "", "1", "", ""⟩]).length
      = [(⟨"p1", "study_baseline", "2022-01-01", "", "1", "", ""⟩ : RawRow)].length ∧
    (∀ r ∈ [(⟨"p1", "study_baseline", "2022-01-01", "", "1", "", ""⟩ : RawRow)],
      normalizeRow r ∈
        normalizeTable [⟨"p1", "study_baseline", "2022-01-01", "", "1", "", ""⟩]) ∧
    parseDate "not a date" = none ∧
    parseStatus "n/a" = none ∧
    normalizeRow ⟨" p1 ", "study_baseline", "garbage", "2022-13-45", "x",
      "", "?"⟩ = ⟨"p1", "study_baseline", none, none, none, none, none⟩ :=
  column_check_and_row_normalization ⟨true, true, true, true, true, false, true⟩
    [⟨"p1", "study_baseline", "2022-01-01", "", "1", "", ""⟩]


end TestDeviations
